import Mathlib

/-!
Shallow embedding of the 3D graph layout and interaction engine of
`src/frontend/src/lib/components/graph/ThreeGraph.svelte` (Memexia).

Vector arithmetic follows the `THREE.Vector3` source methods used by the
component (`add`, `sub`, `multiplyScalar`, `length`, `normalize`,
`applyQuaternion`, `addScaledVector`); numbers are modelled as real numbers,
so every arithmetic operation is total (the clamped division and the
`length() || 1` guard inside `normalize` are embedded explicitly).
The position map `nodePositions : Map<string, Vector3>` is modelled as a
function `String → Option Vec3`; an in-place mutation of a stored vector is
an update of the map at that key.
-/

noncomputable section

/-- A 3-component vector, as `THREE.Vector3`; components are reals. -/
@[ext]
structure Vec3 where
  x : ℝ
  y : ℝ
  z : ℝ

namespace Vec3

/-- The zero vector, `new THREE.Vector3()`. -/
def zero : Vec3 := ⟨0, 0, 0⟩

/-- `Vector3.add`. -/
def add (a b : Vec3) : Vec3 := ⟨a.x + b.x, a.y + b.y, a.z + b.z⟩

/-- `Vector3.sub`. -/
def sub (a b : Vec3) : Vec3 := ⟨a.x - b.x, a.y - b.y, a.z - b.z⟩

/-- `Vector3.multiplyScalar`. -/
def smul (s : ℝ) (a : Vec3) : Vec3 := ⟨a.x * s, a.y * s, a.z * s⟩

/-- `Vector3.lengthSq`. -/
def lengthSq (a : Vec3) : ℝ := a.x * a.x + a.y * a.y + a.z * a.z

/-- `Vector3.length`. -/
def length (a : Vec3) : ℝ := Real.sqrt a.lengthSq

/-- `Vector3.normalize`: `divideScalar(this.length() || 1)`, i.e. a
zero-length vector is divided by 1 and stays zero. -/
def normalize (a : Vec3) : Vec3 :=
  smul (1 / (if a.length = 0 then 1 else a.length)) a

theorem lengthSq_nonneg (a : Vec3) : 0 ≤ a.lengthSq := by
  unfold lengthSq; nlinarith [sq_nonneg a.x, sq_nonneg a.y, sq_nonneg a.z]

theorem length_nonneg (a : Vec3) : 0 ≤ a.length := Real.sqrt_nonneg _

theorem length_eq_zero_iff (a : Vec3) : a.length = 0 ↔ a = zero := by
  unfold length
  rw [Real.sqrt_eq_zero (lengthSq_nonneg a)]
  constructor
  · intro h
    unfold lengthSq at h
    have hx : a.x = 0 := by nlinarith [mul_self_nonneg a.x, mul_self_nonneg a.y, mul_self_nonneg a.z]
    have hy : a.y = 0 := by nlinarith [mul_self_nonneg a.x, mul_self_nonneg a.y, mul_self_nonneg a.z]
    have hz : a.z = 0 := by nlinarith [mul_self_nonneg a.x, mul_self_nonneg a.y, mul_self_nonneg a.z]
    cases a; simp_all [zero]
  · intro h; subst h; simp [zero, lengthSq]

theorem lengthSq_smul (s : ℝ) (a : Vec3) : (smul s a).lengthSq = s ^ 2 * a.lengthSq := by
  unfold smul lengthSq; ring

theorem length_smul (s : ℝ) (a : Vec3) : (smul s a).length = |s| * a.length := by
  unfold length
  rw [lengthSq_smul, Real.sqrt_mul (sq_nonneg s), Real.sqrt_sq_eq_abs]

theorem length_normalize (a : Vec3) (h : a ≠ zero) : (normalize a).length = 1 := by
  have hl : a.length ≠ 0 := fun h0 => h ((length_eq_zero_iff a).mp h0)
  have hpos : 0 < a.length := lt_of_le_of_ne (length_nonneg a) (Ne.symm hl)
  unfold normalize
  rw [if_neg hl, length_smul]
  rw [abs_of_pos (by positivity)]
  field_simp

/-- x-axis vectors have length `|a|`. -/
theorem length_xaxis (a : ℝ) : length ⟨a, 0, 0⟩ = |a| := by
  unfold length lengthSq
  simp [Real.sqrt_mul_self_eq_abs]

end Vec3

/-- Node record (the fields read by the graph component). -/
structure Node where
  id : String
  content : String
  node_type : String
deriving DecidableEq

/-- Edge record (the fields read by the graph component). -/
structure Edge where
  source_id : String
  target_id : String
deriving DecidableEq

/-- The `nodePositions : Map<string, THREE.Vector3>` of the component. -/
def PosMap : Type := String → Option Vec3

/-- `Map.set` (and in-place mutation of the stored vector). -/
def PosMap.set (k : String) (v : Vec3) (m : PosMap) : PosMap :=
  fun q => if q = k then some v else m q

/-- `Map.clear()` / the freshly constructed empty map. -/
def PosMap.empty : PosMap := fun _ => none

/-- The repulsion force added to `p1` for the ordered pair `(p1, p2)`:
`diff = p1 - p2`, `dist = max(diff.length(), 1)`,
`force = diff.normalize().multiplyScalar(500 / (dist * dist))`. -/
def repelForce (p1 p2 : Vec3) : Vec3 :=
  let diff := p1.sub p2
  let dist := max diff.length 1
  Vec3.smul (500 / (dist * dist)) diff.normalize

/-- One inner-loop step of the repulsion pass: for outer node `n1` and inner
node `n2`, skip when the ids coincide, otherwise add the repulsion force to
`n1`'s stored position (an in-place mutation of the map entry). -/
def repulsionInner (n1 : Node) (m : PosMap) (n2 : Node) : PosMap :=
  if n1.id = n2.id then m
  else
    match m n1.id, m n2.id with
    | some p1, some p2 => PosMap.set n1.id (p1.add (repelForce p1 p2)) m
    | _, _ => m

/-- The full repulsion pass: the nested `nodes.forEach` loops, processed
sequentially over the mutating map. -/
def repulsionPass (nodes : List Node) (m : PosMap) : PosMap :=
  nodes.foldl (fun m n1 => nodes.foldl (repulsionInner n1) m) m

/-- The attraction force for an edge with endpoint positions `p1` (source)
and `p2` (target): `diff = p2 - p1`, `force = diff.normalize() * (dist * 0.01)`. -/
def attractionForce (p1 p2 : Vec3) : Vec3 :=
  let diff := p2.sub p1
  let dist := diff.length
  Vec3.smul (dist * 0.01) diff.normalize

/-- One attraction step: if both endpoint positions exist, move the source
by the force and the target by its negation; otherwise the edge is skipped. -/
def attractionStep (m : PosMap) (e : Edge) : PosMap :=
  match m e.source_id, m e.target_id with
  | some p1, some p2 =>
      let force := attractionForce p1 p2
      PosMap.set e.target_id (p2.sub force) (PosMap.set e.source_id (p1.add force) m)
  | _, _ => m

/-- One layout iteration: the repulsion pass followed by the attraction
pass over all edges. -/
def layoutIteration (nodes : List Node) (edges : List Edge) (m : PosMap) : PosMap :=
  edges.foldl attractionStep (repulsionPass nodes m)

/-- Initial spherical placement of the node at index `i` among `n` nodes:
`phi = acos(-1 + 2*i/n)`, `theta = sqrt(n*π) * phi`, radius 100. -/
def initialPosition (n i : ℕ) : Vec3 :=
  let phi := Real.arccos (-1 + (2 * (i : ℝ)) / (n : ℝ))
  let theta := Real.sqrt ((n : ℝ) * Real.pi) * phi
  let radius : ℝ := 100
  ⟨radius * Real.cos theta * Real.sin phi,
   radius * Real.sin theta * Real.sin phi,
   radius * Real.cos phi⟩

/-- The initial `nodes.forEach((node, i) => nodePositions.set(node.id, ...))`
pass, starting from the cleared map. -/
def initialPositions (nodes : List Node) : PosMap :=
  nodes.enum.foldl (fun m p => PosMap.set p.2.id (initialPosition nodes.length p.1) m)
    PosMap.empty

/-- The layout computation with an explicit iteration count: initial
spherical placement followed by `iters` relaxation iterations. -/
def layout (nodes : List Node) (edges : List Edge) (iters : ℕ) : PosMap :=
  (layoutIteration nodes edges)^[iters] (initialPositions nodes)

/-- The position computation of `createGraph`: the code runs 50 iterations. -/
def createGraphPositions (nodes : List Node) (edges : List Edge) : PosMap :=
  layout nodes edges 50

/-- The flattened vertex array of the rendered line primitive: for each edge
whose two endpoint positions exist, six components are appended. -/
def lineSegments (edges : List Edge) (m : PosMap) : List ℝ :=
  edges.foldl
    (fun acc e =>
      match m e.source_id, m e.target_id with
      | some p1, some p2 => acc ++ [p1.x, p1.y, p1.z, p2.x, p2.y, p2.z]
      | _, _ => acc)
    []

/-- The flattened vertex array of the rendered point primitive (the
`positions` Float32Array): three components per node, read from the map. -/
def pointsPositions (nodes : List Node) (m : PosMap) : List ℝ :=
  nodes.foldl
    (fun acc n =>
      match m n.id with
      | some p => acc ++ [p.x, p.y, p.z]
      | none => acc)
    []

/-! ### Domain preservation: every pass defines a position exactly where its
input map does, so layout keeps initial placement's key set. -/

theorem repulsionInner_isSome (n1 n2 : Node) (m : PosMap) (k : String) :
    ((repulsionInner n1 m n2) k).isSome = (m k).isSome := by
  unfold repulsionInner
  by_cases h : n1.id = n2.id
  · rw [if_pos h]
  · rw [if_neg h]
    cases h1 : m n1.id with
    | none => rfl
    | some p1 =>
      cases h2 : m n2.id with
      | none => rfl
      | some p2 =>
        simp only [PosMap.set]
        by_cases hk : k = n1.id
        · subst hk; rw [if_pos rfl, h1]; rfl
        · rw [if_neg hk]

theorem foldl_isSome {α : Type} (f : PosMap → α → PosMap) (l : List α) (m : PosMap)
    (hf : ∀ m a k, ((f m a) k).isSome = (m k).isSome) (k : String) :
    ((l.foldl f m) k).isSome = (m k).isSome := by
  induction l generalizing m with
  | nil => rfl
  | cons a t ih => simp only [List.foldl_cons]; rw [ih, hf]

theorem attractionStep_isSome (m : PosMap) (e : Edge) (k : String) :
    ((attractionStep m e) k).isSome = (m k).isSome := by
  unfold attractionStep
  cases h1 : m e.source_id with
  | none => rfl
  | some p1 =>
    cases h2 : m e.target_id with
    | none => rfl
    | some p2 =>
      simp only [PosMap.set]
      by_cases hk1 : k = e.target_id
      · subst hk1; rw [if_pos rfl, h2]; rfl
      · rw [if_neg hk1]
        by_cases hk2 : k = e.source_id
        · subst hk2; rw [if_pos rfl, h1]; rfl
        · rw [if_neg hk2]

theorem repulsionPass_isSome (nodes : List Node) (m : PosMap) (k : String) :
    ((repulsionPass nodes m) k).isSome = (m k).isSome := by
  unfold repulsionPass
  exact foldl_isSome _ _ _
    (fun m n1 k => foldl_isSome _ _ _ (fun m n2 k => repulsionInner_isSome n1 n2 m k) k) k

theorem layoutIteration_isSome (nodes : List Node) (edges : List Edge) (m : PosMap)
    (k : String) : ((layoutIteration nodes edges m) k).isSome = (m k).isSome := by
  unfold layoutIteration
  rw [foldl_isSome _ _ _ (fun m e k => attractionStep_isSome m e k) k,
    repulsionPass_isSome]

theorem foldl_set_isSome (N : ℕ) (l : List (ℕ × Node)) (m : PosMap) (k : String) :
    ((l.foldl (fun m p => PosMap.set p.2.id (initialPosition N p.1) m) m) k).isSome = true ↔
      k ∈ l.map (fun p => p.2.id) ∨ (m k).isSome = true := by
  induction l generalizing m with
  | nil => simp
  | cons a t ih =>
    simp only [List.foldl_cons, List.map_cons, List.mem_cons]
    rw [ih]
    simp only [PosMap.set]
    by_cases hk : k = a.2.id
    · subst hk; simp
    · rw [if_neg hk]
      constructor
      · rintro (h | h)
        · exact Or.inl (Or.inr h)
        · exact Or.inr h
      · rintro ((h | h) | h)
        · exact absurd h hk
        · exact Or.inl h
        · exact Or.inr h

theorem initialPositions_isSome (nodes : List Node) (k : String) :
    ((initialPositions nodes) k).isSome = true ↔ k ∈ nodes.map Node.id := by
  unfold initialPositions
  rw [foldl_set_isSome]
  have hmap : nodes.enum.map (fun p => p.2.id) = nodes.map Node.id := by
    rw [show (fun p : ℕ × Node => p.2.id) = Node.id ∘ Prod.snd from rfl, ← List.map_map,
      List.enum_map_snd]
  rw [hmap]
  simp [PosMap.empty]

theorem layout_isSome (nodes : List Node) (edges : List Edge) (iters : ℕ) (k : String) :
    ((layout nodes edges iters) k).isSome = true ↔ k ∈ nodes.map Node.id := by
  unfold layout
  induction iters with
  | zero => simpa using initialPositions_isSome nodes k
  | succ n ih =>
    rw [Function.iterate_succ_apply', layoutIteration_isSome]
    exact ih

theorem Vec3.sub_eq_zero_iff (a b : Vec3) : a.sub b = Vec3.zero ↔ a = b := by
  cases a; cases b
  simp only [Vec3.sub, Vec3.zero, Vec3.mk.injEq]
  constructor
  · rintro ⟨h1, h2, h3⟩; exact ⟨by linarith, by linarith, by linarith⟩
  · rintro ⟨h1, h2, h3⟩; exact ⟨by linarith, by linarith, by linarith⟩

theorem Vec3.smul_smul (s t : ℝ) (v : Vec3) :
    Vec3.smul s (Vec3.smul t v) = Vec3.smul (t * s) v := by
  ext <;> simp [Vec3.smul] <;> ring

/-- The z-coordinate of the initial placement recovers the even spacing. -/
theorem initialPosition_z (n i : ℕ) (hi : i < n) :
    (initialPosition n i).z = 100 * (-1 + (2 * (i : ℝ)) / (n : ℝ)) := by
  have hn : (0 : ℝ) < n := by exact_mod_cast Nat.pos_of_ne_zero (by omega)
  unfold initialPosition
  simp only
  rw [Real.cos_arccos]
  · have : (0 : ℝ) ≤ (2 * (i : ℝ)) / (n : ℝ) := by positivity
    linarith
  · have hi' : (i : ℝ) ≤ (n : ℝ) := by exact_mod_cast le_of_lt hi
    have h2 : (2 * (i : ℝ)) / (n : ℝ) ≤ 2 := by rw [div_le_iff hn]; nlinarith
    linarith

/-- C8: for every node array of length n, the initial spherical placement
assigns pairwise-distinct positions to distinct indices `i ≠ j` below n
(their z-coordinates `100 * (-1 + 2i/n)` already differ). -/
theorem C8_initial_placement_pairwise_distinct (n i j : ℕ) (hi : i < n) (hj : j < n)
    (hij : i ≠ j) : initialPosition n i ≠ initialPosition n j := by
  intro heq
  have hz := congrArg Vec3.z heq
  rw [initialPosition_z n i hi, initialPosition_z n j hj] at hz
  have hn : (0 : ℝ) < n := by exact_mod_cast Nat.pos_of_ne_zero (by omega)
  field_simp at hz
  exact hij (by exact_mod_cast hz)

/-- Witness for C8 at n = 2, i = 0, j = 1. -/
theorem C8_witness : initialPosition 2 0 ≠ initialPosition 2 1 :=
  C8_initial_placement_pairwise_distinct 2 0 1 (by norm_num) (by norm_num) (by norm_num)

/-- C10: for a retained edge with distinct endpoints, the attraction step moves
the source by the force and the target by its negation, so the midpoint of the
two endpoint positions is unchanged. -/
theorem C10_attraction_is_equal_and_opposite (m : PosMap) (e : Edge) (p1 p2 : Vec3)
    (hs : m e.source_id = some p1) (ht : m e.target_id = some p2)
    (hne : e.source_id ≠ e.target_id) :
    (attractionStep m e) e.source_id = some (p1.add (attractionForce p1 p2)) ∧
    (attractionStep m e) e.target_id = some (p2.sub (attractionForce p1 p2)) ∧
    Vec3.smul (1/2)
        ((p1.add (attractionForce p1 p2)).add (p2.sub (attractionForce p1 p2))) =
      Vec3.smul (1/2) (p1.add p2) := by
  refine ⟨?_, ?_, ?_⟩
  · unfold attractionStep
    rw [hs, ht]
    simp only [PosMap.set]
    rw [if_neg hne]
    simp
  · unfold attractionStep
    rw [hs, ht]
    simp only [PosMap.set]
    simp
  · ext <;> simp [Vec3.add, Vec3.sub, Vec3.smul] <;> ring

/-- Witness for C10 at a concrete two-entry map. -/
theorem C10_witness :
    (attractionStep (PosMap.set "b" ⟨2,0,0⟩ (PosMap.set "a" ⟨0,0,0⟩ PosMap.empty))
        ⟨"a", "b"⟩) "a" = some (Vec3.add ⟨0,0,0⟩ (attractionForce ⟨0,0,0⟩ ⟨2,0,0⟩)) ∧
    (attractionStep (PosMap.set "b" ⟨2,0,0⟩ (PosMap.set "a" ⟨0,0,0⟩ PosMap.empty))
        ⟨"a", "b"⟩) "b" = some (Vec3.sub ⟨2,0,0⟩ (attractionForce ⟨0,0,0⟩ ⟨2,0,0⟩)) ∧
    Vec3.smul (1/2)
        (Vec3.add (Vec3.add ⟨0,0,0⟩ (attractionForce ⟨0,0,0⟩ ⟨2,0,0⟩))
          (Vec3.sub ⟨2,0,0⟩ (attractionForce ⟨0,0,0⟩ ⟨2,0,0⟩))) =
      Vec3.smul (1/2) (Vec3.add ⟨0,0,0⟩ ⟨2,0,0⟩) :=
  C10_attraction_is_equal_and_opposite _ ⟨"a", "b"⟩ ⟨0,0,0⟩ ⟨2,0,0⟩
    (by simp [PosMap.set])
    (by simp [PosMap.set])
    (by decide)

/-- Closed form of the repulsion force between two points on the x-axis that
are at least distance 1 apart. -/
theorem repelForce_xaxis (a b : ℝ) (h : 1 ≤ |a - b|) :
    repelForce ⟨a, 0, 0⟩ ⟨b, 0, 0⟩ = ⟨500 / ((a - b) * |a - b|), 0, 0⟩ := by
  have hpos : 0 < |a - b| := lt_of_lt_of_le one_pos h
  have hne : a - b ≠ 0 := abs_ne_zero.mp (ne_of_gt hpos)
  have habs : |a - b| ≠ 0 := ne_of_gt hpos
  have hsub : (⟨a, 0, 0⟩ : Vec3).sub ⟨b, 0, 0⟩ = ⟨a - b, 0, 0⟩ := by
    simp [Vec3.sub]
  simp only [repelForce, hsub, Vec3.normalize, Vec3.length_xaxis]
  rw [max_eq_left h, if_neg habs]
  simp only [Vec3.smul]
  refine Vec3.ext ?_ ?_ ?_
  · show (a - b) * (1 / |a - b|) * (500 / (|a - b| * |a - b|)) = 500 / ((a - b) * |a - b|)
    rw [abs_mul_abs_self]
    field_simp
    ring
  · show 0 * (1 / |a - b|) * (500 / (|a - b| * |a - b|)) = 0
    ring
  · show 0 * (1 / |a - b|) * (500 / (|a - b| * |a - b|)) = 0
    ring

/-- Concrete two-node input used in the analysis of claim C2: node "a" at the
origin and node "b" at (10, 0, 0). -/
def nodeA : Node := ⟨"a", "c", "manual"⟩

def nodeB : Node := ⟨"b", "c", "manual"⟩

def mAB : PosMap := PosMap.set "b" ⟨10, 0, 0⟩ (PosMap.set "a" ⟨0, 0, 0⟩ PosMap.empty)

theorem mAB_a : mAB "a" = some ⟨0, 0, 0⟩ := by simp [mAB, PosMap.set]

theorem mAB_b : mAB "b" = some ⟨10, 0, 0⟩ := by simp [mAB, PosMap.set]

/-- C2 (amended): each ordered-pair update of the repulsion pass adds to the
outer node a displacement of magnitude `500 / max(dist, 1)²` directed away
from the other node, where distance and direction are taken from the
positions current in the in-place-mutated map at that point of the pass
(which may already include earlier displacements of the same pass), not from
the positions held when the pass began. -/
theorem C2_repulsion_step_current_positions (n1 n2 : Node) (m : PosMap)
    (p1 p2 : Vec3) (h1 : m n1.id = some p1) (h2 : m n2.id = some p2)
    (hne : n1.id ≠ n2.id) (hpp : p1 ≠ p2) :
    repulsionInner n1 m n2 = PosMap.set n1.id (p1.add (repelForce p1 p2)) m ∧
    (repelForce p1 p2).length =
      500 / (max (p1.sub p2).length 1 * max (p1.sub p2).length 1) ∧
    ∃ c : ℝ, 0 ≤ c ∧ repelForce p1 p2 = Vec3.smul c (p1.sub p2) := by
  have hdz : p1.sub p2 ≠ Vec3.zero := fun h => hpp ((Vec3.sub_eq_zero_iff p1 p2).mp h)
  have hlen : (p1.sub p2).length ≠ 0 := fun h => hdz ((Vec3.length_eq_zero_iff _).mp h)
  have hlpos : 0 < (p1.sub p2).length :=
    lt_of_le_of_ne (Vec3.length_nonneg _) (Ne.symm hlen)
  have hdpos : 0 < max (p1.sub p2).length 1 := lt_of_lt_of_le one_pos (le_max_right _ _)
  refine ⟨?_, ?_, ?_⟩
  · unfold repulsionInner
    rw [if_neg hne, h1, h2]
  · simp only [repelForce]
    rw [Vec3.length_smul, Vec3.length_normalize _ hdz,
      abs_of_pos (div_pos (by norm_num) (mul_pos hdpos hdpos)), mul_one]
  · refine ⟨(1 / (p1.sub p2).length) *
      (500 / (max (p1.sub p2).length 1 * max (p1.sub p2).length 1)), ?_, ?_⟩
    · positivity
    · simp only [repelForce, Vec3.normalize]
      rw [if_neg hlen, Vec3.smul_smul]

/-- Witness for the amended C2 at the concrete two-node input. -/
theorem C2_witness :
    repulsionInner nodeA mAB nodeB =
      PosMap.set nodeA.id (Vec3.add ⟨0, 0, 0⟩ (repelForce ⟨0, 0, 0⟩ ⟨10, 0, 0⟩)) mAB ∧
    (repelForce (⟨0, 0, 0⟩ : Vec3) ⟨10, 0, 0⟩).length =
      500 / (max ((⟨0, 0, 0⟩ : Vec3).sub ⟨10, 0, 0⟩).length 1 *
        max ((⟨0, 0, 0⟩ : Vec3).sub ⟨10, 0, 0⟩).length 1) ∧
    ∃ c : ℝ, 0 ≤ c ∧ repelForce (⟨0, 0, 0⟩ : Vec3) ⟨10, 0, 0⟩ =
      Vec3.smul c ((⟨0, 0, 0⟩ : Vec3).sub ⟨10, 0, 0⟩) :=
  C2_repulsion_step_current_positions nodeA nodeB mAB ⟨0, 0, 0⟩ ⟨10, 0, 0⟩
    mAB_a mAB_b (by decide)
    (fun h => absurd (congrArg Vec3.x h) (by norm_num))

/-- C2 counterexample: starting the pass with node "a" at the origin and node
"b" at (10, 0, 0), the claim (forces from pass-start positions) predicts "b"
ends at (15, 0, 0); the code's sequential pass moves "a" first, so "b"
actually receives 500/15² = 20/9 and ends at (10 + 20/9, 0, 0). -/
theorem C2_counterexample :
    repulsionPass [nodeA, nodeB] mAB "b" ≠
      some (Vec3.add ⟨10, 0, 0⟩ (repelForce ⟨10, 0, 0⟩ ⟨0, 0, 0⟩)) := by
  have hf1 : repelForce (⟨0, 0, 0⟩ : Vec3) ⟨10, 0, 0⟩ = ⟨-5, 0, 0⟩ := by
    rw [repelForce_xaxis 0 10 (by norm_num)]
    norm_num [Vec3.mk.injEq]
  have hf2 : repelForce (⟨10, 0, 0⟩ : Vec3) ⟨-5, 0, 0⟩ = ⟨20/9, 0, 0⟩ := by
    rw [repelForce_xaxis 10 (-5) (by norm_num)]
    norm_num [Vec3.mk.injEq]
  have hf3 : repelForce (⟨10, 0, 0⟩ : Vec3) ⟨0, 0, 0⟩ = ⟨5, 0, 0⟩ := by
    rw [repelForce_xaxis 10 0 (by norm_num)]
    norm_num [Vec3.mk.injEq]
  have r0 : repulsionInner nodeA mAB nodeA = mAB := by
    unfold repulsionInner; rw [if_pos rfl]
  have r1 : repulsionInner nodeA mAB nodeB = PosMap.set "a" ⟨-5, 0, 0⟩ mAB := by
    simp only [repulsionInner, nodeA, nodeB, mAB_a, mAB_b]
    rw [hf1]
    norm_num [Vec3.add, Vec3.mk.injEq]
    exact fun h => absurd h (by decide)
  have m1_a : (PosMap.set "a" ⟨-5, 0, 0⟩ mAB) "a" = some ⟨-5, 0, 0⟩ := by
    simp [PosMap.set]
  have m1_b : (PosMap.set "a" ⟨-5, 0, 0⟩ mAB) "b" = some ⟨10, 0, 0⟩ := by
    simp [PosMap.set, mAB_b]
  have r2 : repulsionInner nodeB (PosMap.set "a" ⟨-5, 0, 0⟩ mAB) nodeA =
      PosMap.set "b" ⟨10 + 20/9, 0, 0⟩ (PosMap.set "a" ⟨-5, 0, 0⟩ mAB) := by
    simp only [repulsionInner, nodeA, nodeB, m1_a, m1_b]
    rw [hf2]
    norm_num [Vec3.add, Vec3.mk.injEq]
    exact fun h => absurd h (by decide)
  have r3 : ∀ m : PosMap, repulsionInner nodeB m nodeB = m := fun m => by
    unfold repulsionInner; rw [if_pos rfl]
  have pass : repulsionPass [nodeA, nodeB] mAB =
      PosMap.set "b" ⟨10 + 20/9, 0, 0⟩ (PosMap.set "a" ⟨-5, 0, 0⟩ mAB) := by
    unfold repulsionPass
    simp only [List.foldl_cons, List.foldl_nil]
    rw [r0, r1, r2, r3]
  rw [pass, hf3]
  simp only [PosMap.set, Vec3.add, if_pos rfl]
  norm_num [Vec3.mk.injEq]

/-- C7: the layout computation is a pure function of the node array, the edge
array and the iteration count — two runs on identical inputs yield identical
positions for every key (the code draws on no random source: initial placement
is derived from each node's index). -/
theorem C7_layout_two_runs_identical (nodes1 nodes2 : List Node)
    (edges1 edges2 : List Edge) (iters1 iters2 : ℕ) (hn : nodes1 = nodes2)
    (he : edges1 = edges2) (hi : iters1 = iters2) (k : String) :
    layout nodes1 edges1 iters1 k = layout nodes2 edges2 iters2 k := by
  subst hn; subst he; subst hi; rfl

/-- Witness for C7 at a concrete input. -/
theorem C7_witness :
    layout [⟨"a", "c", "manual"⟩] [] 50 "a" = layout [⟨"a", "c", "manual"⟩] [] 50 "a" :=
  C7_layout_two_runs_identical [⟨"a", "c", "manual"⟩] [⟨"a", "c", "manual"⟩] [] [] 50 50
    rfl rfl rfl "a"

/-- An attraction step on an edge with a missing endpoint position leaves the
map unchanged (`if (p1 && p2)` fails). -/
theorem attractionStep_invalid (m : PosMap) (e : Edge)
    (h : m e.source_id = none ∨ m e.target_id = none) : attractionStep m e = m := by
  unfold attractionStep
  rcases h with h | h
  · rw [h]
  · rw [h]
    cases m e.source_id <;> rfl

/-- Folding the attraction pass over a list with an invalid edge spliced in
equals folding over the list without it. -/
theorem attraction_fold_skip (nodes : List Node) (es1 es2 : List Edge) (e : Edge)
    (m : PosMap) (hdom : ∀ k, ((m k).isSome = true) ↔ k ∈ nodes.map Node.id)
    (he : e.source_id ∉ nodes.map Node.id ∨ e.target_id ∉ nodes.map Node.id) :
    (es1 ++ e :: es2).foldl attractionStep m = (es1 ++ es2).foldl attractionStep m := by
  rw [List.foldl_append, List.foldl_append, List.foldl_cons]
  congr 1
  apply attractionStep_invalid
  have hdom1 : ∀ k, ((es1.foldl attractionStep m) k).isSome = (m k).isSome :=
    fun k => foldl_isSome _ _ _ (fun m e k => attractionStep_isSome m e k) k
  rcases he with h | h
  · left
    rw [← Option.not_isSome_iff_eq_none, hdom1]
    intro hcon
    exact h ((hdom e.source_id).mp hcon)
  · right
    rw [← Option.not_isSome_iff_eq_none, hdom1]
    intro hcon
    exact h ((hdom e.target_id).mp hcon)

/-- A layout iteration does not see an invalid edge. -/
theorem layoutIteration_invalid (nodes : List Node) (es1 es2 : List Edge) (e : Edge)
    (m : PosMap) (hdom : ∀ k, ((m k).isSome = true) ↔ k ∈ nodes.map Node.id)
    (he : e.source_id ∉ nodes.map Node.id ∨ e.target_id ∉ nodes.map Node.id) :
    layoutIteration nodes (es1 ++ e :: es2) m = layoutIteration nodes (es1 ++ es2) m := by
  unfold layoutIteration
  apply attraction_fold_skip nodes es1 es2 e _ _ he
  intro k
  rw [show ((repulsionPass nodes m k).isSome = true) =
    ((m k).isSome = true) from by rw [repulsionPass_isSome]]
  exact hdom k

/-- The whole layout is unchanged when an invalid edge is spliced in. -/
theorem layout_invalid (nodes : List Node) (es1 es2 : List Edge) (e : Edge) (iters : ℕ)
    (he : e.source_id ∉ nodes.map Node.id ∨ e.target_id ∉ nodes.map Node.id) :
    layout nodes (es1 ++ e :: es2) iters = layout nodes (es1 ++ es2) iters := by
  induction iters with
  | zero => rfl
  | succ n ih =>
    unfold layout at *
    rw [Function.iterate_succ_apply', Function.iterate_succ_apply', ih]
    exact layoutIteration_invalid nodes es1 es2 e _
      (fun k => layout_isSome nodes (es1 ++ es2) n k) he

/-- The line-segment array skips an edge whose endpoint position is missing. -/
theorem lineSegments_skip (es1 es2 : List Edge) (e : Edge) (m : PosMap)
    (hm : m e.source_id = none ∨ m e.target_id = none) :
    lineSegments (es1 ++ e :: es2) m = lineSegments (es1 ++ es2) m := by
  unfold lineSegments
  rw [List.foldl_append, List.foldl_append, List.foldl_cons]
  congr 1
  rcases hm with h | h
  · simp only [h]
  · simp only [h]
    cases m e.source_id <;> rfl

/-- C3: an edge whose source or target id is absent from the node set
contributes no attraction displacement (the final positions equal those of a
run without the edge) and no segment to the rendered line primitive, and the
rendered point geometry is likewise identical. -/
theorem C3_invalid_edge_excluded (nodes : List Node) (es1 es2 : List Edge) (e : Edge)
    (iters : ℕ)
    (he : e.source_id ∉ nodes.map Node.id ∨ e.target_id ∉ nodes.map Node.id) :
    layout nodes (es1 ++ e :: es2) iters = layout nodes (es1 ++ es2) iters ∧
    lineSegments (es1 ++ e :: es2) (layout nodes (es1 ++ e :: es2) iters) =
      lineSegments (es1 ++ es2) (layout nodes (es1 ++ es2) iters) ∧
    pointsPositions nodes (layout nodes (es1 ++ e :: es2) iters) =
      pointsPositions nodes (layout nodes (es1 ++ es2) iters) := by
  have hlay := layout_invalid nodes es1 es2 e iters he
  refine ⟨hlay, ?_, by rw [hlay]⟩
  rw [hlay]
  apply lineSegments_skip
  have hdom := fun k => layout_isSome nodes (es1 ++ es2) iters k
  rcases he with h | h
  · left
    rw [← Option.not_isSome_iff_eq_none]
    intro hcon
    exact h ((hdom e.source_id).mp hcon)
  · right
    rw [← Option.not_isSome_iff_eq_none]
    intro hcon
    exact h ((hdom e.target_id).mp hcon)

/-- Witness for C3: a single node "a" and an edge pointing at the missing id
"zz". -/
theorem C3_witness :
    layout [nodeA] ([] ++ ⟨"a", "zz"⟩ :: []) 50 = layout [nodeA] ([] ++ []) 50 ∧
    lineSegments ([] ++ ⟨"a", "zz"⟩ :: []) (layout [nodeA] ([] ++ ⟨"a", "zz"⟩ :: []) 50) =
      lineSegments ([] ++ []) (layout [nodeA] ([] ++ []) 50) ∧
    pointsPositions [nodeA] (layout [nodeA] ([] ++ ⟨"a", "zz"⟩ :: []) 50) =
      pointsPositions [nodeA] (layout [nodeA] ([] ++ []) 50) :=
  C3_invalid_edge_excluded [nodeA] [] [] ⟨"a", "zz"⟩ 50 (Or.inr (by simp [nodeA]))

/-- C1: for every node array with distinct ids and every edge array, after the
initial sphere placement and the 50 relaxation iterations of `createGraph`,
every node in the array is mapped to exactly one position; in this real-valued
embedding all arithmetic is total (the distance clamp and the guarded
`normalize` prevent division by zero), so every stored component is a real
number — the embedding's rendition of "finite, no NaN and no Infinity". -/
theorem C1_every_node_has_exactly_one_finite_position (nodes : List Node)
    (edges : List Edge) (hdist : (nodes.map Node.id).Nodup) (node : Node)
    (hmem : node ∈ nodes) :
    ∃! v : Vec3, createGraphPositions nodes edges node.id = some v := by
  have hk : node.id ∈ nodes.map Node.id := List.mem_map_of_mem _ hmem
  have h := (layout_isSome nodes edges 50 node.id).mpr hk
  unfold createGraphPositions
  cases hv : layout nodes edges 50 node.id with
  | none => rw [hv] at h; simp at h
  | some v =>
    exact ⟨v, rfl, fun y hy => (Option.some_inj.mp hy).symm⟩

/-- Witness for C1 at a concrete one-node, zero-edge input. -/
theorem C1_witness : ∃! v : Vec3,
    createGraphPositions [⟨"a", "c", "manual"⟩] [] "a" = some v :=
  C1_every_node_has_exactly_one_finite_position [⟨"a", "c", "manual"⟩] []
    (by simp) ⟨"a", "c", "manual"⟩ (by simp)

/-! ### Keyboard movement (the `animate` frame handler). -/

/-- Camera orientation quaternion (`THREE.Quaternion`). -/
structure Quat where
  x : ℝ
  y : ℝ
  z : ℝ
  w : ℝ

/-- A unit-length quaternion, the precondition `Vector3.applyQuaternion`
documents ("quaternion q is assumed to have unit length"); THREE.js keeps
the camera quaternion normalized. -/
def Quat.unit (q : Quat) : Prop := q.x ^ 2 + q.y ^ 2 + q.z ^ 2 + q.w ^ 2 = 1

/-- `Vector3.applyQuaternion` per the THREE.js source:
`t = 2 * cross(q.xyz, v)`, result `v + q.w * t + cross(q.xyz, t)`. -/
def applyQuaternion (q : Quat) (v : Vec3) : Vec3 :=
  let tx := 2 * (q.y * v.z - q.z * v.y)
  let ty := 2 * (q.z * v.x - q.x * v.z)
  let tz := 2 * (q.x * v.y - q.y * v.x)
  ⟨v.x + q.w * tx + q.y * tz - q.z * ty,
   v.y + q.w * ty + q.z * tx - q.x * tz,
   v.z + q.w * tz + q.x * ty - q.y * tx⟩

theorem applyQuaternion_lengthSq (q : Quat) (v : Vec3) (hq : q.unit) :
    (applyQuaternion q v).lengthSq = v.lengthSq := by
  obtain ⟨qx, qy, qz, qw⟩ := q
  obtain ⟨vx, vy, vz⟩ := v
  simp only [applyQuaternion, Vec3.lengthSq, Quat.unit] at *
  linear_combination (4 * ((qy * vz - qz * vy) ^ 2 + (qz * vx - qx * vz) ^ 2 +
    (qx * vy - qy * vx) ^ 2)) * hq

theorem applyQuaternion_length (q : Quat) (v : Vec3) (hq : q.unit) :
    (applyQuaternion q v).length = v.length := by
  unfold Vec3.length
  rw [applyQuaternion_lengthSq q v hq]

theorem Vec3.lengthSq_pos_of_ne (v : Vec3) (h : v ≠ Vec3.zero) : 0 < v.lengthSq := by
  rcases lt_or_eq_of_le (Vec3.lengthSq_nonneg v) with hlt | heq
  · exact hlt
  · exfalso
    apply h
    apply (Vec3.length_eq_zero_iff v).mp
    unfold Vec3.length
    rw [← heq, Real.sqrt_zero]

theorem Vec3.add_sub_cancel_left (a b : Vec3) : (a.add b).sub a = b := by
  ext <;> simp [Vec3.add, Vec3.sub]

/-- `const moveSpeed = 5`. -/
def moveSpeed : ℝ := 5

/-- The aggregate direction vector `move` built in `animate` from the
currently-held movement keys. -/
def moveDir (keys : List String) : Vec3 :=
  ⟨(if keys.contains "arrowright" || keys.contains "d" then (1 : ℝ) else 0) -
     (if keys.contains "arrowleft" || keys.contains "a" then (1 : ℝ) else 0),
   (if keys.contains "e" then (1 : ℝ) else 0) -
     (if keys.contains "q" then (1 : ℝ) else 0),
   (if keys.contains "arrowdown" || keys.contains "s" then (1 : ℝ) else 0) -
     (if keys.contains "arrowup" || keys.contains "w" then (1 : ℝ) else 0)⟩

/-- The keyboard-movement section of `animate`: when keys are held and the
aggregate direction is nonzero, it is normalized, rotated by the camera
quaternion, and added scaled by `moveSpeed` (via `addScaledVector`) to both
the camera position and the orbit target. -/
def animateMove (keys : List String) (q : Quat) (camPos target : Vec3) : Vec3 × Vec3 :=
  if keys = [] then (camPos, target)
  else
    let move := moveDir keys
    if 0 < move.lengthSq then
      let m := applyQuaternion q move.normalize
      (camPos.add (Vec3.smul moveSpeed m), target.add (Vec3.smul moveSpeed m))
    else (camPos, target)

theorem moveDir_nil : moveDir [] = Vec3.zero := by
  simp [moveDir, Vec3.zero]

/-- C6: with a unit camera quaternion and a nonzero aggregate direction, the
per-frame displacement applied to both the camera position and the orbit
target is the normalized aggregate direction rotated into the camera's
orientation, scaled by the fixed move speed — hence its magnitude is always
`moveSpeed`, the same for a single held key and for any multi-key
combination. -/
theorem C6_movement_normalized (keys : List String) (q : Quat) (camPos target : Vec3)
    (hq : q.unit) (hnz : moveDir keys ≠ Vec3.zero) :
    animateMove keys q camPos target =
      (camPos.add (Vec3.smul moveSpeed (applyQuaternion q (moveDir keys).normalize)),
       target.add (Vec3.smul moveSpeed (applyQuaternion q (moveDir keys).normalize))) ∧
    ((animateMove keys q camPos target).1.sub camPos).length = moveSpeed ∧
    ((animateMove keys q camPos target).2.sub target).length = moveSpeed := by
  have hkeys : keys ≠ [] := fun h => hnz (by rw [h, moveDir_nil])
  have hpos : 0 < (moveDir keys).lengthSq := Vec3.lengthSq_pos_of_ne _ hnz
  have heq : animateMove keys q camPos target =
      (camPos.add (Vec3.smul moveSpeed (applyQuaternion q (moveDir keys).normalize)),
       target.add (Vec3.smul moveSpeed (applyQuaternion q (moveDir keys).normalize))) := by
    unfold animateMove
    rw [if_neg hkeys, if_pos hpos]
  have hlen :
      (Vec3.smul moveSpeed (applyQuaternion q (moveDir keys).normalize)).length =
        moveSpeed := by
    rw [Vec3.length_smul, applyQuaternion_length q _ hq,
      Vec3.length_normalize _ hnz, mul_one]
    unfold moveSpeed
    norm_num
  refine ⟨heq, ?_, ?_⟩
  · rw [heq]
    simp only
    rw [Vec3.add_sub_cancel_left]
    exact hlen
  · rw [heq]
    simp only
    rw [Vec3.add_sub_cancel_left]
    exact hlen

/-- Witness for C6: forward+strafe-right ("w" and "d") under the identity
quaternion. -/
theorem C6_witness :
    animateMove ["w", "d"] ⟨0, 0, 0, 1⟩ Vec3.zero Vec3.zero =
      (Vec3.add Vec3.zero
        (Vec3.smul moveSpeed
          (applyQuaternion ⟨0, 0, 0, 1⟩ (moveDir ["w", "d"]).normalize)),
       Vec3.add Vec3.zero
        (Vec3.smul moveSpeed
          (applyQuaternion ⟨0, 0, 0, 1⟩ (moveDir ["w", "d"]).normalize))) ∧
    ((animateMove ["w", "d"] ⟨0, 0, 0, 1⟩ Vec3.zero Vec3.zero).1.sub Vec3.zero).length =
      moveSpeed ∧
    ((animateMove ["w", "d"] ⟨0, 0, 0, 1⟩ Vec3.zero Vec3.zero).2.sub Vec3.zero).length =
      moveSpeed :=
  C6_movement_normalized ["w", "d"] ⟨0, 0, 0, 1⟩ Vec3.zero Vec3.zero
    (by norm_num [Quat.unit])
    (by
      intro h
      have hx := congrArg Vec3.x h
      simp [moveDir, Vec3.zero] at hx)

/-! ### Scene state: primitive lifecycle across `createGraph` rebuilds, and
the `onMouseClick` picking handler. -/

/-- Kind of a graph primitive. -/
inductive PrimKind where
  | points
  | lines
deriving DecidableEq

/-- A scene object (a `THREE.Points` or `THREE.LineSegments` instance); the
tag is the model's identity for the JS object reference. -/
structure SceneObj where
  tag : ℕ
  kind : PrimKind
deriving DecidableEq

/-- Lifecycle events recorded in program order during `createGraph`. -/
inductive Ev where
  | removed (o : SceneObj)
  | disposedGeometry (o : SceneObj)
  | disposedMaterial (o : SceneObj)
  | constructed (o : SceneObj)
  | added (o : SceneObj)
deriving DecidableEq

/-- Teardown events: `scene.remove`, `geometry.dispose`, `material.dispose`. -/
def Ev.isTeardown : Ev → Bool
  | .removed _ => true
  | .disposedGeometry _ => true
  | .disposedMaterial _ => true
  | _ => false

/-- Build events: primitive construction and `scene.add`. -/
def Ev.isBuild : Ev → Bool
  | .constructed _ => true
  | .added _ => true
  | _ => false

/-- The component state touched by `createGraph`. -/
structure GraphState where
  scene : List SceneObj
  pointsObject : Option SceneObj
  linesObject : Option SceneObj
  nodePositions : PosMap
  nextTag : ℕ

/-- `scene.remove(o)` for a tracked object, if any (`if (pointsObject) ...`). -/
def eraseTracked (tracked : Option SceneObj) (sc : List SceneObj) : List SceneObj :=
  match tracked with
  | some o => sc.erase o
  | none => sc

/-- The teardown events emitted for a tracked object, if any. -/
def teardownEvs (tracked : Option SceneObj) : List Ev :=
  match tracked with
  | some o => [Ev.removed o, Ev.disposedGeometry o, Ev.disposedMaterial o]
  | none => []

/-- `createGraph` as a state transition with its event trace, in program
order: remove and dispose the previous point then line primitive (the stale
variable references are not nulled); return early on an empty node array
(before `nodePositions.clear()`); otherwise recompute positions, construct
and attach the new point primitive, and, when the edge vertex array is
nonempty, the new line primitive. -/
def createGraph (nodes : List Node) (edges : List Edge) (s : GraphState) :
    GraphState × List Ev :=
  if nodes = [] then
    ({ s with scene := eraseTracked s.linesObject (eraseTracked s.pointsObject s.scene) },
     teardownEvs s.pointsObject ++ teardownEvs s.linesObject)
  else if lineSegments edges (createGraphPositions nodes edges) = [] then
    ({ scene := eraseTracked s.linesObject (eraseTracked s.pointsObject s.scene) ++
        [⟨s.nextTag, PrimKind.points⟩],
       pointsObject := some ⟨s.nextTag, PrimKind.points⟩,
       linesObject := s.linesObject,
       nodePositions := createGraphPositions nodes edges,
       nextTag := s.nextTag + 1 },
     teardownEvs s.pointsObject ++ teardownEvs s.linesObject ++
       [Ev.constructed ⟨s.nextTag, PrimKind.points⟩, Ev.added ⟨s.nextTag, PrimKind.points⟩])
  else
    ({ scene := eraseTracked s.linesObject (eraseTracked s.pointsObject s.scene) ++
        [⟨s.nextTag, PrimKind.points⟩, ⟨s.nextTag + 1, PrimKind.lines⟩],
       pointsObject := some ⟨s.nextTag, PrimKind.points⟩,
       linesObject := some ⟨s.nextTag + 1, PrimKind.lines⟩,
       nodePositions := createGraphPositions nodes edges,
       nextTag := s.nextTag + 2 },
     teardownEvs s.pointsObject ++ teardownEvs s.linesObject ++
       [Ev.constructed ⟨s.nextTag, PrimKind.points⟩, Ev.added ⟨s.nextTag, PrimKind.points⟩,
        Ev.constructed ⟨s.nextTag + 1, PrimKind.lines⟩,
        Ev.added ⟨s.nextTag + 1, PrimKind.lines⟩])

/-- Scene-graph invariant maintained by the component: no duplicate scene
children, every points-kind (resp. lines-kind) object in the scene is the one
tracked by `pointsObject` (resp. `linesObject`), and all tags are below the
fresh-tag counter. -/
structure SceneInv (s : GraphState) : Prop where
  nodup : s.scene.Nodup
  pointsTracked : ∀ o ∈ s.scene, o.kind = PrimKind.points → s.pointsObject = some o
  linesTracked : ∀ o ∈ s.scene, o.kind = PrimKind.lines → s.linesObject = some o
  tagsFresh : ∀ o ∈ s.scene, o.tag < s.nextTag

/-- Under the invariant, the disposal prologue empties the scene: every child
is points- or lines-kind, hence tracked, hence erased. -/
theorem eraseTracked_scene_nil (s : GraphState) (hInv : SceneInv s) :
    eraseTracked s.linesObject (eraseTracked s.pointsObject s.scene) = [] := by
  rw [List.eq_nil_iff_forall_not_mem]
  intro o ho
  have hnodup1 : (eraseTracked s.pointsObject s.scene).Nodup := by
    cases hp : s.pointsObject with
    | none => simpa [eraseTracked] using hInv.nodup
    | some p => exact hInv.nodup.erase p
  have hmem1 : o ∈ eraseTracked s.pointsObject s.scene := by
    cases hl : s.linesObject with
    | none => simpa [eraseTracked, hl] using ho
    | some l =>
      rw [hl] at ho
      exact List.mem_of_mem_erase ho
  have hmem0 : o ∈ s.scene := by
    cases hp : s.pointsObject with
    | none => simpa [eraseTracked, hp] using hmem1
    | some p =>
      rw [hp] at hmem1
      exact List.mem_of_mem_erase hmem1
  cases hk : o.kind with
  | points =>
    have hp := hInv.pointsTracked o hmem0 hk
    rw [hp] at hmem1
    exact ((List.Nodup.mem_erase_iff hInv.nodup).mp hmem1).1 rfl
  | lines =>
    have hl := hInv.linesTracked o hmem0 hk
    rw [hl] at ho
    exact ((List.Nodup.mem_erase_iff hnodup1).mp ho).1 rfl

theorem teardownEvs_isTeardown (tracked : Option SceneObj) :
    ∀ ev ∈ teardownEvs tracked, ev.isTeardown = true := by
  cases tracked <;> simp [teardownEvs, Ev.isTeardown]

theorem teardownEvs_not_isBuild (tracked : Option SceneObj) :
    ∀ ev ∈ teardownEvs tracked, ev.isBuild = false := by
  cases tracked <;> simp [teardownEvs, Ev.isBuild]

/-- Under the invariant, objects of the same kind in the scene coincide. -/
theorem sceneInv_kind_unique (s : GraphState) (h : SceneInv s) :
    ∀ o1 ∈ s.scene, ∀ o2 ∈ s.scene, o1.kind = o2.kind → o1 = o2 := by
  intro o1 h1 o2 h2 hk
  cases hk1 : o1.kind with
  | points =>
    have e1 := h.pointsTracked o1 h1 hk1
    have e2 := h.pointsTracked o2 h2 (by rw [← hk, hk1])
    rw [e1] at e2
    exact Option.some_inj.mp e2
  | lines =>
    have e1 := h.linesTracked o1 h1 hk1
    have e2 := h.linesTracked o2 h2 (by rw [← hk, hk1])
    rw [e1] at e2
    exact Option.some_inj.mp e2

/-- C9: in every execution of `createGraph` from a state satisfying the scene
invariant, the event trace splits into a prefix of teardown events — holding
the removal and the geometry/material disposal of the previous point and line
primitives — followed only by build events, the invariant is preserved, and
the resulting scene never holds two point primitives or two line primitives. -/
theorem C9_rebuild_disposes_old_before_new (nodes : List Node) (edges : List Edge)
    (s : GraphState) (hInv : SceneInv s) :
    SceneInv (createGraph nodes edges s).1 ∧
    (∃ pre post, (createGraph nodes edges s).2 = pre ++ post ∧
      (∀ ev ∈ pre, ev.isTeardown = true) ∧
      (∀ ev ∈ post, ev.isBuild = true) ∧
      (∀ o, s.pointsObject = some o →
        Ev.removed o ∈ pre ∧ Ev.disposedGeometry o ∈ pre ∧ Ev.disposedMaterial o ∈ pre) ∧
      (∀ o, s.linesObject = some o →
        Ev.removed o ∈ pre ∧ Ev.disposedGeometry o ∈ pre ∧ Ev.disposedMaterial o ∈ pre)) ∧
    (∀ o1 ∈ (createGraph nodes edges s).1.scene,
      ∀ o2 ∈ (createGraph nodes edges s).1.scene, o1.kind = o2.kind → o1 = o2) := by
  have hscene := eraseTracked_scene_nil s hInv
  have hpreT : ∀ ev ∈ teardownEvs s.pointsObject ++ teardownEvs s.linesObject,
      ev.isTeardown = true := by
    intro ev hev
    rcases List.mem_append.mp hev with h | h
    · exact teardownEvs_isTeardown _ ev h
    · exact teardownEvs_isTeardown _ ev h
  have hmemP : ∀ o, s.pointsObject = some o →
      Ev.removed o ∈ teardownEvs s.pointsObject ++ teardownEvs s.linesObject ∧
      Ev.disposedGeometry o ∈ teardownEvs s.pointsObject ++ teardownEvs s.linesObject ∧
      Ev.disposedMaterial o ∈ teardownEvs s.pointsObject ++ teardownEvs s.linesObject := by
    intro o ho
    rw [ho]
    refine ⟨List.mem_append_left _ ?_, List.mem_append_left _ ?_,
      List.mem_append_left _ ?_⟩ <;> simp [teardownEvs]
  have hmemL : ∀ o, s.linesObject = some o →
      Ev.removed o ∈ teardownEvs s.pointsObject ++ teardownEvs s.linesObject ∧
      Ev.disposedGeometry o ∈ teardownEvs s.pointsObject ++ teardownEvs s.linesObject ∧
      Ev.disposedMaterial o ∈ teardownEvs s.pointsObject ++ teardownEvs s.linesObject := by
    intro o ho
    rw [ho]
    refine ⟨List.mem_append_right _ ?_, List.mem_append_right _ ?_,
      List.mem_append_right _ ?_⟩ <;> simp [teardownEvs]
  unfold createGraph
  by_cases hn : nodes = []
  · rw [if_pos hn]
    refine ⟨?_, ?_, ?_⟩
    · constructor
      · simp only [hscene]
        exact List.nodup_nil
      · simp only [hscene]
        intro o ho
        exact absurd ho (List.not_mem_nil o)
      · simp only [hscene]
        intro o ho
        exact absurd ho (List.not_mem_nil o)
      · simp only [hscene]
        intro o ho
        exact absurd ho (List.not_mem_nil o)
    · exact ⟨teardownEvs s.pointsObject ++ teardownEvs s.linesObject, [],
        by simp, hpreT, by simp, hmemP, hmemL⟩
    · simp only [hscene]
      intro o1 ho1
      exact absurd ho1 (List.not_mem_nil o1)
  · rw [if_neg hn]
    by_cases hl : lineSegments edges (createGraphPositions nodes edges) = []
    · rw [if_pos hl]
      have hInv2 : SceneInv
          { scene := eraseTracked s.linesObject (eraseTracked s.pointsObject s.scene) ++
              [⟨s.nextTag, PrimKind.points⟩],
            pointsObject := some ⟨s.nextTag, PrimKind.points⟩,
            linesObject := s.linesObject,
            nodePositions := createGraphPositions nodes edges,
            nextTag := s.nextTag + 1 } := by
        constructor
        · simp only [hscene]
          simp
        · simp only [hscene]
          intro o ho hk
          simp only [List.nil_append, List.mem_singleton] at ho
          rw [ho]
        · simp only [hscene]
          intro o ho hk
          simp only [List.nil_append, List.mem_singleton] at ho
          rw [ho] at hk
          exact absurd hk (by simp)
        · simp only [hscene]
          intro o ho
          simp only [List.nil_append, List.mem_singleton] at ho
          rw [ho]
          exact Nat.lt_succ_self _
      refine ⟨hInv2, ?_, sceneInv_kind_unique _ hInv2⟩
      exact ⟨teardownEvs s.pointsObject ++ teardownEvs s.linesObject,
        [Ev.constructed ⟨s.nextTag, PrimKind.points⟩, Ev.added ⟨s.nextTag, PrimKind.points⟩],
        by simp, hpreT, by simp [Ev.isBuild], hmemP, hmemL⟩
    · rw [if_neg hl]
      have hInv3 : SceneInv
          { scene := eraseTracked s.linesObject (eraseTracked s.pointsObject s.scene) ++
              [⟨s.nextTag, PrimKind.points⟩, ⟨s.nextTag + 1, PrimKind.lines⟩],
            pointsObject := some ⟨s.nextTag, PrimKind.points⟩,
            linesObject := some ⟨s.nextTag + 1, PrimKind.lines⟩,
            nodePositions := createGraphPositions nodes edges,
            nextTag := s.nextTag + 2 } := by
        constructor
        · simp only [hscene]
          simp [SceneObj.mk.injEq]
        · simp only [hscene]
          intro o ho hk
          simp only [List.nil_append, List.mem_cons, List.not_mem_nil, or_false] at ho
          rcases ho with ho | ho
          · rw [ho]
          · rw [ho] at hk
            exact absurd hk (by simp)
        · simp only [hscene]
          intro o ho hk
          simp only [List.nil_append, List.mem_cons, List.not_mem_nil, or_false] at ho
          rcases ho with ho | ho
          · rw [ho] at hk
            exact absurd hk (by simp)
          · rw [ho]
        · simp only [hscene]
          intro o ho
          simp only [List.nil_append, List.mem_cons, List.not_mem_nil, or_false] at ho
          rcases ho with ho | ho
          · rw [ho]
            exact Nat.lt_add_of_pos_right (by norm_num)
          · rw [ho]
            exact Nat.lt_succ_self _
      refine ⟨hInv3, ?_, sceneInv_kind_unique _ hInv3⟩
      exact ⟨teardownEvs s.pointsObject ++ teardownEvs s.linesObject,
        [Ev.constructed ⟨s.nextTag, PrimKind.points⟩, Ev.added ⟨s.nextTag, PrimKind.points⟩,
         Ev.constructed ⟨s.nextTag + 1, PrimKind.lines⟩,
         Ev.added ⟨s.nextTag + 1, PrimKind.lines⟩],
        by simp, hpreT, by simp [Ev.isBuild], hmemP, hmemL⟩

/-- A freshly mounted component state: empty scene, no tracked primitives. -/
def freshState : GraphState :=
  { scene := [], pointsObject := none, linesObject := none,
    nodePositions := PosMap.empty, nextTag := 0 }

theorem freshState_inv : SceneInv freshState :=
  ⟨List.nodup_nil, by intro o ho; exact absurd ho (List.not_mem_nil o),
    by intro o ho; exact absurd ho (List.not_mem_nil o),
    by intro o ho; exact absurd ho (List.not_mem_nil o)⟩

/-- Witness for C9 at a concrete rebuild from the fresh state. -/
theorem C9_witness :
    SceneInv (createGraph [nodeA] [] freshState).1 ∧
    (∃ pre post, (createGraph [nodeA] [] freshState).2 = pre ++ post ∧
      (∀ ev ∈ pre, ev.isTeardown = true) ∧
      (∀ ev ∈ post, ev.isBuild = true) ∧
      (∀ o, freshState.pointsObject = some o →
        Ev.removed o ∈ pre ∧ Ev.disposedGeometry o ∈ pre ∧ Ev.disposedMaterial o ∈ pre) ∧
      (∀ o, freshState.linesObject = some o →
        Ev.removed o ∈ pre ∧ Ev.disposedGeometry o ∈ pre ∧ Ev.disposedMaterial o ∈ pre)) ∧
    (∀ o1 ∈ (createGraph [nodeA] [] freshState).1.scene,
      ∀ o2 ∈ (createGraph [nodeA] [] freshState).1.scene, o1.kind = o2.kind → o1 = o2) :=
  C9_rebuild_disposes_old_before_new [nodeA] [] freshState freshState_inv

/-! ### Picking (`onMouseClick`). -/

/-- `getBoundingClientRect()` of the render surface. -/
structure Rect where
  left : ℝ
  top : ℝ
  width : ℝ
  height : ℝ

/-- A pointer click event (`event.clientX`, `event.clientY`). -/
structure MouseEv where
  clientX : ℝ
  clientY : ℝ

/-- A raycaster intersection record; `index` is the intersected vertex index
(`undefined` is `none`). -/
structure Intersection where
  index : Option ℕ

/-- The normalized-device-coordinate conversion in `onMouseClick`:
`mouse.x = ((clientX - rect.left) / rect.width) * 2 - 1`,
`mouse.y = -((clientY - rect.top) / rect.height) * 2 + 1`. -/
def mouseNDC (e : MouseEv) (rect : Rect) : ℝ × ℝ :=
  (((e.clientX - rect.left) / rect.width) * 2 - 1,
   -((e.clientY - rect.top) / rect.height) * 2 + 1)

/-- The events the component can dispatch: its dispatcher is declared with
the single event `nodeClick { node, position }`. -/
inductive GraphEvent where
  | nodeClick (node : Node) (x y : ℝ)

/-- `onMouseClick`: guard on an existing points object and renderer; convert
the click to normalized device coordinates; cast a ray (abstracted as a
function from the NDC pair to the intersection list, since the geometric ray
test lives inside THREE.js); if the first intersection carries a defined
vertex index that resolves to a node, dispatch `nodeClick` with the click's
client coordinates; in every other case dispatch nothing. -/
def onMouseClick (pointsObject : Option SceneObj) (hasRenderer : Bool)
    (nodes : List Node) (rect : Rect) (e : MouseEv)
    (raycast : ℝ × ℝ → List Intersection) : Option GraphEvent :=
  if pointsObject = none ∨ hasRenderer = false then none
  else
    match raycast (mouseNDC e rect) with
    | [] => none
    | i :: _ =>
      match i.index with
      | none => none
      | some idx =>
        match nodes[idx]? with
        | some node => some (GraphEvent.nodeClick node e.clientX e.clientY)
        | none => none

/-- Picking over an empty node array dispatches nothing: the vertex-index
lookup `nodes[index]` misses and the `if (node)` guard fails. -/
theorem onMouseClick_no_nodes (po : Option SceneObj) (hasR : Bool) (rect : Rect)
    (e : MouseEv) (raycast : ℝ × ℝ → List Intersection) :
    onMouseClick po hasR [] rect e raycast = none := by
  unfold onMouseClick
  by_cases hg : po = none ∨ hasR = false
  · rw [if_pos hg]
  · rw [if_neg hg]
    cases raycast (mouseNDC e rect) with
    | nil => rfl
    | cons i rest =>
      cases hidx : i.index with
      | none => simp [hidx]
      | some idx => simp [hidx]

/-- C4 (amended): a primary click is converted to normalized device
coordinates and raycast; when the points primitive exists and the renderer is
initialized, a first intersection with a defined vertex index resolving to a
node dispatches `nodeClick` carrying that node and the click's client
coordinates, and a miss dispatches nothing at all (the component declares no
selection-cleared event). -/
theorem C4_click_dispatch (po : Option SceneObj) (nodes : List Node) (rect : Rect)
    (e : MouseEv) (raycast : ℝ × ℝ → List Intersection) (hpo : po ≠ none) :
    (∀ i rest idx node, raycast (mouseNDC e rect) = i :: rest → i.index = some idx →
        nodes[idx]? = some node →
        onMouseClick po true nodes rect e raycast =
          some (GraphEvent.nodeClick node e.clientX e.clientY)) ∧
    (raycast (mouseNDC e rect) = [] →
        onMouseClick po true nodes rect e raycast = none) := by
  have hg : ¬(po = none ∨ (true : Bool) = false) := by
    rintro (h | h)
    · exact hpo h
    · exact absurd h (by simp)
  constructor
  · intro i rest idx node hray hidx hnode
    unfold onMouseClick
    rw [if_neg hg]
    simp only [hray, hidx, hnode]
  · intro hray
    unfold onMouseClick
    rw [if_neg hg]
    simp only [hray]

/-- Witness for the amended C4 at a concrete hit. -/
theorem C4_witness :
    (∀ i rest idx node,
        (fun _ : ℝ × ℝ => [Intersection.mk (some 0)])
            (mouseNDC ⟨0, 0⟩ ⟨0, 0, 1, 1⟩) = i :: rest →
        i.index = some idx → [nodeA][idx]? = some node →
        onMouseClick (some ⟨0, PrimKind.points⟩) true [nodeA] ⟨0, 0, 1, 1⟩ ⟨0, 0⟩
            (fun _ => [Intersection.mk (some 0)]) =
          some (GraphEvent.nodeClick node (MouseEv.clientX ⟨0, 0⟩)
            (MouseEv.clientY ⟨0, 0⟩))) ∧
    ((fun _ : ℝ × ℝ => [Intersection.mk (some 0)])
        (mouseNDC ⟨0, 0⟩ ⟨0, 0, 1, 1⟩) = [] →
      onMouseClick (some ⟨0, PrimKind.points⟩) true [nodeA] ⟨0, 0, 1, 1⟩ ⟨0, 0⟩
          (fun _ => [Intersection.mk (some 0)]) = none) :=
  C4_click_dispatch (some ⟨0, PrimKind.points⟩) [nodeA] ⟨0, 0, 1, 1⟩ ⟨0, 0⟩
    (fun _ => [Intersection.mk (some 0)]) (by simp)

/-- C4 counterexample: on a miss (empty intersection list) with a live points
primitive and renderer and a nonempty node array, the handler dispatches
nothing — no selection-cleared event is emitted (none exists in the
component's event type). -/
theorem C4_counterexample :
    onMouseClick (some ⟨0, PrimKind.points⟩) true [nodeA] ⟨0, 0, 1, 1⟩ ⟨0, 0⟩
      (fun _ => []) = none := by
  unfold onMouseClick
  rw [if_neg (by simp)]

/-- A component state carrying a stale position map from a previous snapshot. -/
def staleState : GraphState :=
  { scene := [], pointsObject := none, linesObject := none,
    nodePositions := PosMap.set "a" ⟨1, 2, 3⟩ PosMap.empty, nextTag := 0 }

theorem staleState_inv : SceneInv staleState :=
  ⟨List.nodup_nil, by intro o ho; exact absurd ho (List.not_mem_nil o),
    by intro o ho; exact absurd ho (List.not_mem_nil o),
    by intro o ho; exact absurd ho (List.not_mem_nil o)⟩

/-- C5 (amended): with an empty node array, `createGraph` throws nothing (the
transition is total), emits no build event, leaves the scene empty of graph
primitives, leaves the node-position map unchanged — it is empty only if it
was already empty, since the early return happens before
`nodePositions.clear()` — and a subsequent pointer click dispatches no
selection event. -/
theorem C5_empty_nodes_no_primitives (edges : List Edge) (s : GraphState)
    (hInv : SceneInv s) :
    (createGraph [] edges s).1.scene = [] ∧
    (createGraph [] edges s).1.nodePositions = s.nodePositions ∧
    (∀ ev ∈ (createGraph [] edges s).2, ev.isBuild = false) ∧
    (∀ po hasR rect e raycast, onMouseClick po hasR [] rect e raycast = none) := by
  have hscene := eraseTracked_scene_nil s hInv
  refine ⟨?_, ?_, ?_, ?_⟩
  · unfold createGraph
    rw [if_pos rfl]
    exact hscene
  · unfold createGraph
    rw [if_pos rfl]
  · unfold createGraph
    rw [if_pos rfl]
    intro ev hev
    rcases List.mem_append.mp hev with h | h
    · exact teardownEvs_not_isBuild _ ev h
    · exact teardownEvs_not_isBuild _ ev h
  · exact fun po hasR rect e raycast => onMouseClick_no_nodes po hasR rect e raycast

/-- Witness for the amended C5 at the concrete stale state. -/
theorem C5_witness :
    (createGraph [] [] staleState).1.scene = [] ∧
    (createGraph [] [] staleState).1.nodePositions = staleState.nodePositions ∧
    (∀ ev ∈ (createGraph [] [] staleState).2, ev.isBuild = false) ∧
    (∀ po hasR rect e raycast, onMouseClick po hasR [] rect e raycast = none) :=
  C5_empty_nodes_no_primitives [] staleState staleState_inv

/-- C5 counterexample: `createGraph` with an empty node array does not produce
an empty node-position map — the early return precedes `nodePositions.clear()`,
so a stale entry from the previous snapshot survives. -/
theorem C5_counterexample :
    (createGraph [] [] staleState).1.nodePositions "a" = some ⟨1, 2, 3⟩ ∧
    (createGraph [] [] staleState).1.nodePositions "a" ≠ none := by
  constructor
  · unfold createGraph
    rw [if_pos rfl]
    simp [staleState, PosMap.set]
  · unfold createGraph
    rw [if_pos rfl]
    simp [staleState, PosMap.set]

end
